import Mathlib

/-!
Verification of the ArcadeTakeHome transactional key-value store
(`src/arcade_store/store.py` and `src/api.py`).

The embedding models the `Session` transaction-layer engine and the parts of
`Store` it uses:

* the SQLite table `arcade_store` is a partial map `Key → Option Val`;
  `Store._db_get` returns the stored JSON value, or Python `None` when the
  row is absent — Python `None` is the JSON value `null`, modelled by the
  distinguished constructor `Val.null`, so `_db_get` returns a total `Val`;
* a transaction layer (`store.py` line 198: `self._stack.append(({}, set()))`)
  is a pair of a `writes` map and a `deleted` set; Python dict/set membership
  becomes `Option.isSome` / a `Bool`-valued characteristic function;
* the Python stack list (append/pop/[-1] at the end) is a Lean cons list with
  the top layer at the head, so `reversed(self._stack)` iteration in
  `Session.get` is plain head-to-tail recursion;
* the commit log (`Store._append_log`) is a list of records appended on each
  successful flush;
* the outermost-commit SQLite batch (`BEGIN; … ; conn.commit()` with
  `conn.rollback()` on exception) is modelled with a Boolean oracle
  `applyOk`: on success the whole per-key net effect is applied at once, on
  failure the store is unchanged — exactly the all-or-nothing contract of the
  SQLite transaction the code relies on.

Stateful methods become state-passing functions on `SessState`
(the session's layer stack plus the shared store state).
-/

namespace ArcadeStore

/-- Keys are strings (`key TEXT PRIMARY KEY`). -/
abbrev Key := String

/-- JSON-serializable values as stored by `Store._db_set` / read by
`Store._db_get`.  `Val.null` is Python `None` (JSON `null`); a couple of other
representative constructors stand for the remaining opaque JSON blobs. -/
inductive Val where
  | null : Val
  | int : Int → Val
  | str : String → Val
deriving DecidableEq, Repr

/-- One transaction layer of a `Session`: pending `writes` and pending
`deleted` keys (`store.py` lines 159-161, 198). -/
structure Layer where
  writes : Key → Option Val
  deleted : Key → Bool

/-- The empty layer pushed by `Session.begin` (`({}, set())`). -/
def emptyLayer : Layer :=
  ⟨fun _ => none, fun _ => false⟩

/-- Commit-log record kinds (`Store._append_log`, field `type`). -/
inductive CommitKind where
  | autocommit : CommitKind
  | transaction : CommitKind
deriving DecidableEq

/-- One line of `store_commits.txt` (`Store._append_log`): the kind together
with the flushed writes and deletes.  Timestamp and thread name are opaque
side-channel data and are not modelled. -/
structure LogRecord where
  kind : CommitKind
  writes : Key → Option Val
  deletes : Key → Bool

/-- The shared `Store` state: the SQLite table contents and the commit log. -/
structure StoreState where
  db : Key → Option Val
  log : List LogRecord

/-- A `Session` together with the store it is tied to: its private layer
stack (head = top = innermost) and the shared store state. -/
structure SessState where
  stack : List Layer
  store : StoreState

/-- The `Store._db_get` helper: the stored value of the row for `k`, or
Python `None` (= `Val.null`) when there is no row (`store.py` lines 79-97). -/
def dbGet (db : Key → Option Val) (k : Key) : Val :=
  match db k with
  | none => Val.null
  | some v => v

/-- The `Store._db_set` upsert (`store.py` lines 99-115). -/
def dbSet (db : Key → Option Val) (k : Key) (v : Val) : Key → Option Val :=
  fun q => if q = k then some v else db q

/-- The `Store._db_delete` statement (`store.py` lines 117-130); deleting an
absent key leaves the table unchanged and is not an error. -/
def dbDelete (db : Key → Option Val) (k : Key) : Key → Option Val :=
  fun q => if q = k then none else db q

/-- The layer-stack scan of `Session.get` (`store.py` lines 302-309): walk
from the top layer down; a layer with `key in deleted` yields `None`, a layer
with `key in writes` yields that value, otherwise fall to the next layer and
finally to `Store._db_get`. -/
def sget : List Layer → (Key → Option Val) → Key → Val
  | [], db, k => dbGet db k
  | l :: rest, db, k =>
    if l.deleted k then Val.null
    else
      match l.writes k with
      | some v => v
      | none => sget rest db k

/-- Errors a `Session` method can raise: the `RuntimeError` of
`commit`/`rollback` on an empty stack, and a failure of the outermost-commit
atomic batch apply (any `Exception` from the SQLite block). -/
inductive Err where
  | noActiveTransaction : Err
  | batchApplyFailed : Err
deriving DecidableEq

/-- `Session.get` (`store.py` lines 291-309): the method only reads, so its
state-passing embedding returns the value together with the unchanged state. -/
def getOp (k : Key) (st : SessState) : Val × SessState :=
  (sget st.stack st.store.db k, st)

/-- `Session.begin` (`store.py` line 198): push a fresh empty layer. -/
def beginOp (st : SessState) : SessState :=
  ⟨emptyLayer :: st.stack, st.store⟩

/-- The single-key writes map `{key: value}` of an autocommit `set` record. -/
def singletonWrites (k : Key) (v : Val) : Key → Option Val :=
  fun q => if q = k then some v else none

/-- The single-key deletes set `[key]` of an autocommit `delete` record. -/
def singletonDeletes (k : Key) : Key → Bool :=
  fun q => q == k

/-- `Session.set` (`store.py` lines 263-289).  Empty stack: autocommit —
upsert into the table, then append one `autocommit` log record with
`writes={key: value}, deletes=[]`.  Non-empty stack: `writes[key] = value`
in the top layer and remove `key` from the top layer's `deleted`. -/
def setOp (k : Key) (v : Val) (st : SessState) : SessState :=
  match st.stack with
  | [] =>
    ⟨[], ⟨dbSet st.store.db k v,
          st.store.log ++ [⟨CommitKind.autocommit, singletonWrites k v, fun _ => false⟩]⟩⟩
  | top :: rest =>
    ⟨⟨fun q => if q = k then some v else top.writes q,
       fun q => if q = k then false else top.deleted q⟩ :: rest,
     st.store⟩

/-- `Session.delete` (`store.py` lines 311-336).  Empty stack: autocommit —
delete the row, then append one `autocommit` log record with
`writes={}, deletes=[key]`.  Non-empty stack: add `key` to the top layer's
`deleted` and remove it from the top layer's `writes`. -/
def deleteOp (k : Key) (st : SessState) : SessState :=
  match st.stack with
  | [] =>
    ⟨[], ⟨dbDelete st.store.db k,
          st.store.log ++ [⟨CommitKind.autocommit, fun _ => none, singletonDeletes k⟩]⟩⟩
  | top :: rest =>
    ⟨⟨fun q => if q = k then none else top.writes q,
       fun q => if q = k then true else top.deleted q⟩ :: rest,
     st.store⟩

/-- The nested-commit merge of `Session.commit` (`store.py` lines 217-230),
expressed per key.  The code runs the deletes pass before the writes pass,
and the two passes touch a given key independently of all other keys, so for
each key: a key in the child's writes ends written and not deleted in the
parent; otherwise a key in the child's deleted ends deleted and unwritten;
otherwise the parent's entry is untouched. -/
def mergeLayer (parent top : Layer) : Layer :=
  ⟨fun q =>
     if (top.writes q).isSome then top.writes q
     else if top.deleted q then none else parent.writes q,
   fun q =>
     if (top.writes q).isSome then false
     else parent.deleted q || top.deleted q⟩

/-- The per-key net effect of the outermost-commit batch on the table
(`store.py` lines 232-240): all deletes are executed, then all writes, inside
one SQLite transaction. -/
def applyBatch (db : Key → Option Val) (top : Layer) : Key → Option Val :=
  fun q =>
    if (top.writes q).isSome then top.writes q
    else if top.deleted q then none else db q

/-- `Session.commit` (`store.py` lines 200-249).  Empty stack: raise
`RuntimeError` and change nothing.  Otherwise pop the top layer; if a parent
remains, merge into it purely in memory; if the popped layer was outermost,
run the atomic batch against the table — `applyOk` is the oracle for whether
the SQLite transaction succeeds.  On success append one `transaction` log
record; on failure (`except: conn.rollback(); raise`) the table is rolled
back, no record is appended, and the popped layer is already gone. -/
def commitOp (applyOk : Bool) (st : SessState) : Option Err × SessState :=
  match st.stack with
  | [] => (some Err.noActiveTransaction, st)
  | top :: parent :: rest =>
    (none, ⟨mergeLayer parent top :: rest, st.store⟩)
  | [top] =>
    if applyOk then
      (none, ⟨[], ⟨applyBatch st.store.db top,
                   st.store.log ++ [⟨CommitKind.transaction, top.writes, top.deleted⟩]⟩⟩)
    else
      (some Err.batchApplyFailed, ⟨[], st.store⟩)

/-- `Session.rollback` (`store.py` lines 251-260): raise on an empty stack,
otherwise pop and discard the top layer. -/
def rollbackOp (st : SessState) : Option Err × SessState :=
  match st.stack with
  | [] => (some Err.noActiveTransaction, st)
  | _ :: rest => (none, ⟨rest, st.store⟩)

/-- `Session.depth` (`store.py` lines 339-346): the stack length. -/
def depth (st : SessState) : Nat :=
  st.stack.length

/-- `Store.new_session` / `Session.__init__` (`store.py` lines 133-143,
177-185): a fresh session has an empty stack over the shared store. -/
def newSession (store : StoreState) : SessState :=
  ⟨[], store⟩

/-- The `GET /store/<key>` handler of `src/api.py` (lines 95-105): call
`Session.get`; if the result is Python `None` respond `found=False` with
HTTP 404, otherwise `found=True` with HTTP 200.  Returned as the
`(found, status)` pair. -/
def apiGetKey (st : SessState) (k : Key) : Bool × Nat :=
  match (getOp k st).1 with
  | Val.null => (false, 404)
  | _ => (true, 200)

/-- The per-layer invariant: a key never sits in both `writes` and
`deleted` of the same layer. -/
def LayerInv (l : Layer) : Prop :=
  ∀ k, (l.writes k).isSome → l.deleted k = false

/-- All layers of a stack satisfy the layer invariant. -/
def StacksInv (ls : List Layer) : Prop :=
  ∀ l ∈ ls, LayerInv l

/-- All layers of a session state satisfy the layer invariant. -/
def StackInv (st : SessState) : Prop :=
  StacksInv st.stack

/-- Session states reachable from a fresh session over an arbitrary store by
the public operations. -/
inductive Reach : SessState → Prop where
  | init : ∀ store, Reach (newSession store)
  | beginR : ∀ {st}, Reach st → Reach (beginOp st)
  | setR : ∀ {st} (k : Key) (v : Val), Reach st → Reach (setOp k v st)
  | deleteR : ∀ {st} (k : Key), Reach st → Reach (deleteOp k st)
  | getR : ∀ {st} (k : Key), Reach st → Reach (getOp k st).2
  | commitR : ∀ {st} (applyOk : Bool), Reach st → Reach (commitOp applyOk st).2
  | rollbackR : ∀ {st}, Reach st → Reach (rollbackOp st).2

/-- Operations a session may stage strictly inside a transaction layer:
`set`, `delete` and `get` (the ones of claim C6's rollback round-trip). -/
inductive TxOp where
  | setT : Key → Val → TxOp
  | deleteT : Key → TxOp
  | getT : Key → TxOp

/-- Run a list of staged `set`/`delete`/`get` calls on a session state. -/
def stage : List TxOp → SessState → SessState
  | [], st => st
  | TxOp.setT k v :: ops, st => stage ops (setOp k v st)
  | TxOp.deleteT k :: ops, st => stage ops (deleteOp k st)
  | TxOp.getT k :: ops, st => stage ops (getOp k st).2

/-- The empty table, used by the concrete witness states. -/
def dbEmpty : Key → Option Val :=
  fun _ => none

/-- A store with an empty table and an empty commit log, used by the
concrete witness states. -/
def store0 : StoreState :=
  ⟨dbEmpty, []⟩

/-- A layer that only deletes the key `k`, used by concrete witness states. -/
def deleteOnly (k : Key) : Layer :=
  ⟨fun _ => none, singletonDeletes k⟩

/-- A layer that only writes `v` at the key `k`, used by concrete witness
states. -/
def writeOnly (k : Key) (v : Val) : Layer :=
  ⟨singletonWrites k v, fun _ => false⟩

/-- A stack none of whose layers mentions `k` resolves `k` at the store. -/
theorem sget_of_unresolved (ls : List Layer) (db : Key → Option Val) (k : Key)
    (h : ∀ l ∈ ls, l.writes k = none ∧ l.deleted k = false) :
    sget ls db k = dbGet db k := by
  induction ls with
  | nil => rfl
  | cons l rest ih =>
    have hl := h l (List.mem_cons_self l rest)
    have hrest : ∀ l2 ∈ rest, l2.writes k = none ∧ l2.deleted k = false :=
      fun l2 hm => h l2 (List.mem_cons_of_mem l hm)
    simp [sget, hl.1, hl.2, ih hrest]

/-- C1: `get` scans the layer stack from innermost (top) to outermost
(bottom) and returns the first resolution found: a layer with the key in its
`deleted` set yields absent (`Val.null`), short-circuiting any outer pending
write; a layer with the key in its `writes` yields that value; an
unresolving layer defers to the rest of the stack; with no resolving layer
the Backing Store's value is returned, and absent (never an exception) when
the store has no entry.  In particular, after `set(K,V)` inside an active
transaction, `get(K) = V` in the same session. -/
theorem C1_get_resolution (st : SessState) (l : Layer) (rest : List Layer)
    (k : Key) (v : Val) :
    (st.stack = l :: rest → l.deleted k = true → (getOp k st).1 = Val.null) ∧
    (st.stack = l :: rest → l.deleted k = false → l.writes k = some v →
       (getOp k st).1 = v) ∧
    (st.stack = l :: rest → l.deleted k = false → l.writes k = none →
       (getOp k st).1 = sget rest st.store.db k) ∧
    ((∀ l2 ∈ st.stack, l2.writes k = none ∧ l2.deleted k = false) →
       (getOp k st).1 = dbGet st.store.db k) ∧
    (st.store.db k = none → dbGet st.store.db k = Val.null) ∧
    (st.store.db k = some v → dbGet st.store.db k = v) ∧
    (0 < depth st → (getOp k (setOp k v st)).1 = v) := by
  refine ⟨?_, ?_, ?_, ?_, ?_, ?_, ?_⟩
  · intro hstack hdel
    simp [getOp, hstack, sget, hdel]
  · intro hstack hdel hw
    simp [getOp, hstack, sget, hdel, hw]
  · intro hstack hdel hw
    simp [getOp, hstack, sget, hdel, hw]
  · intro h
    exact sget_of_unresolved st.stack st.store.db k h
  · intro h
    simp [dbGet, h]
  · intro h
    simp [dbGet, h]
  · intro hd
    match hstack : st.stack with
    | [] => simp [depth, hstack] at hd
    | top :: rest2 =>
      simp [setOp, hstack, getOp, sget]

/-- Witness for C1 at a concrete state: in a fresh session with one open
transaction, after `set "a" 7`, `get "a"` returns `7`. -/
theorem C1_get_resolution_witness :
    (getOp "a" (setOp "a" (Val.int 7)
        (beginOp (newSession ⟨fun _ => none, []⟩)))).1 = Val.int 7 :=
  (C1_get_resolution (beginOp (newSession ⟨fun _ => none, []⟩)) emptyLayer []
      "a" (Val.int 7)).2.2.2.2.2.2 (by decide)

/-- C2: committing at depth at least 2 pops the top layer and merges it into
the parent purely in memory, never failing and never touching the store:
every key in the child's `deleted` ends deleted and unwritten in the parent,
every key in the child's `writes` ends written (with the child's value) and
undeleted in the parent, and keys the child does not mention keep the
parent's resolution.  Hence a child-deleted, parent-written key ends deleted,
and a child-written, parent-deleted key ends written. -/
theorem C2_nested_commit (st : SessState) (top parent : Layer)
    (rest : List Layer) (applyOk : Bool)
    (hstack : st.stack = top :: parent :: rest) (hinv : LayerInv top) :
    (commitOp applyOk st).1 = none ∧
    (commitOp applyOk st).2.store = st.store ∧
    (commitOp applyOk st).2.stack = mergeLayer parent top :: rest ∧
    (∀ k, top.deleted k = true →
       (mergeLayer parent top).deleted k = true ∧
       (mergeLayer parent top).writes k = none) ∧
    (∀ k v, top.writes k = some v →
       (mergeLayer parent top).writes k = some v ∧
       (mergeLayer parent top).deleted k = false) ∧
    (∀ k, top.writes k = none → top.deleted k = false →
       (mergeLayer parent top).writes k = parent.writes k ∧
       (mergeLayer parent top).deleted k = parent.deleted k) := by
  refine ⟨by simp [commitOp, hstack], by simp [commitOp, hstack],
          by simp [commitOp, hstack], ?_, ?_, ?_⟩
  · intro k hk
    have hw : top.writes k = none := by
      cases hw : top.writes k with
      | none => rfl
      | some v =>
        have := hinv k (by simp [hw])
        rw [this] at hk
        exact absurd hk (by simp)
    constructor
    · simp [mergeLayer, hw, hk]
    · simp [mergeLayer, hw, hk]
  · intro k v hw
    constructor
    · simp [mergeLayer, hw]
    · simp [mergeLayer, hw]
  · intro k hw hd
    constructor
    · simp [mergeLayer, hw, hd]
    · simp [mergeLayer, hw, hd]

/-- Witness for C2 at a concrete state: a child layer deleting `"a"` over a
parent layer writing `"a" = 1` commits without error and leaves `"a"`
deleted and unwritten in the parent. -/
theorem C2_nested_commit_witness :
    (commitOp true ⟨[deleteOnly "a", writeOnly "a" (Val.int 1)], store0⟩).1 =
        none ∧
    (mergeLayer (writeOnly "a" (Val.int 1)) (deleteOnly "a")).deleted "a" =
        true ∧
    (mergeLayer (writeOnly "a" (Val.int 1)) (deleteOnly "a")).writes "a" =
        none := by
  have h := C2_nested_commit
      ⟨[deleteOnly "a", writeOnly "a" (Val.int 1)], store0⟩
      (deleteOnly "a") (writeOnly "a" (Val.int 1)) [] true rfl
      (fun k hk => by simp [deleteOnly] at hk)
  have ha : (deleteOnly "a").deleted "a" = true := by
    simp [deleteOnly, singletonDeletes]
  exact ⟨h.1, (h.2.2.2.1 "a" ha).1, (h.2.2.2.1 "a" ha).2⟩

/-- C4: committing an inner layer (depth at least 2) leaves both the Backing
Store table and the commit log unchanged; a successful outermost commit
applies the layer's fully-merged net effect (writes win, then deletes, else
the old table value) to the table in one batch and appends exactly one
`transaction` commit-log record carrying that layer's writes and deletes. -/
theorem C4_commit_frame (st : SessState) (applyOk : Bool) (top : Layer) :
    (2 ≤ depth st →
       (commitOp applyOk st).2.store.db = st.store.db ∧
       (commitOp applyOk st).2.store.log = st.store.log) ∧
    (st.stack = [top] →
       (commitOp true st).1 = none ∧
       (∀ k, (commitOp true st).2.store.db k =
          if (top.writes k).isSome then top.writes k
          else if top.deleted k then none else st.store.db k) ∧
       (commitOp true st).2.store.log =
         st.store.log ++ [⟨CommitKind.transaction, top.writes, top.deleted⟩]) := by
  constructor
  · intro hd
    match hstack : st.stack with
    | [] => simp [depth, hstack] at hd
    | [t] => simp [depth, hstack] at hd
    | t :: p :: r => simp [commitOp, hstack]
  · intro hstack
    refine ⟨by simp [commitOp, hstack], ?_, by simp [commitOp, hstack]⟩
    intro k
    simp [commitOp, hstack, applyBatch]

/-- Witness for C4 at a concrete state: committing the single layer writing
`"a" = 1` over an empty store succeeds, stores `1` at `"a"`, and appends one
`transaction` log record. -/
theorem C4_commit_frame_witness :
    (commitOp true ⟨[writeOnly "a" (Val.int 1)], store0⟩).1 = none ∧
    (commitOp true ⟨[writeOnly "a" (Val.int 1)], store0⟩).2.store.db "a" =
        some (Val.int 1) ∧
    (commitOp true ⟨[writeOnly "a" (Val.int 1)], store0⟩).2.store.log =
        store0.log ++
          [⟨CommitKind.transaction, (writeOnly "a" (Val.int 1)).writes,
            (writeOnly "a" (Val.int 1)).deleted⟩] := by
  have h := (C4_commit_frame ⟨[writeOnly "a" (Val.int 1)], store0⟩ true
      (writeOnly "a" (Val.int 1))).2 rfl
  refine ⟨h.1, ?_, h.2.2⟩
  have hk := h.2.1 "a"
  simpa [writeOnly, singletonWrites] using hk

/-- Helper for C6: staged `set`/`delete`/`get` calls only rewrite the top
layer — the layers below and the store state are untouched. -/
theorem stage_shape (ops : List TxOp) (top : Layer) (rest : List Layer)
    (store : StoreState) :
    ∃ top2, stage ops ⟨top :: rest, store⟩ = ⟨top2 :: rest, store⟩ := by
  induction ops generalizing top with
  | nil => exact ⟨top, rfl⟩
  | cons op ops ih =>
    cases op with
    | setT k v =>
      have h := ih ⟨fun q => if q = k then some v else top.writes q,
                    fun q => if q = k then false else top.deleted q⟩
      simpa [stage, setOp] using h
    | deleteT k =>
      have h := ih ⟨fun q => if q = k then none else top.writes q,
                    fun q => if q = k then true else top.deleted q⟩
      simpa [stage, deleteOp] using h
    | getT k =>
      simpa [stage, getOp] using ih top

/-- C6: `rollback` at positive depth pops and discards the top layer with no
merge, no log entry and no store interaction; hence
`begin(); …staged set/delete/get…; rollback()` restores the whole session
state (depth, remaining layers, and so every `get` result) exactly.  In
particular, with an outer layer writing `K = 1` and an inner layer deleting
`K`, `get K` is absent while the inner layer is active and returns `1`
again after the inner rollback. -/
theorem C6_rollback_restores (st : SessState) (ops : List TxOp)
    (inner outer : Layer) (rest : List Layer) (k : Key) :
    (∀ t r, st.stack = t :: r → rollbackOp st = (none, ⟨r, st.store⟩)) ∧
    (rollbackOp (stage ops (beginOp st))).1 = none ∧
    (rollbackOp (stage ops (beginOp st))).2 = st ∧
    (st.stack = inner :: outer :: rest → inner.deleted k = true →
       outer.writes k = some (Val.int 1) → outer.deleted k = false →
       (getOp k st).1 = Val.null ∧
       (getOp k (rollbackOp st).2).1 = Val.int 1) := by
  obtain ⟨top2, hshape⟩ := stage_shape ops emptyLayer st.stack st.store
  have hstage : stage ops (beginOp st) = ⟨top2 :: st.stack, st.store⟩ := by
    simpa [beginOp] using hshape
  refine ⟨?_, ?_, ?_, ?_⟩
  · intro t r hstack
    simp [rollbackOp, hstack]
  · simp [hstage, rollbackOp]
  · simp [hstage, rollbackOp]
  · intro hstack hdel hw hod
    constructor
    · simp [getOp, hstack, sget, hdel]
    · simp [rollbackOp, hstack, getOp, sget, hod, hw]

/-- Witness for C6 at a concrete state: the inner delete of `"k"` shadows
the outer write `"k" = 1`; rolling the inner layer back makes `get "k"`
return `1`, and a begin/delete/rollback round-trip is the identity. -/
theorem C6_rollback_restores_witness :
    (getOp "k" ⟨[deleteOnly "k", writeOnly "k" (Val.int 1)], store0⟩).1 =
        Val.null ∧
    (getOp "k"
        (rollbackOp
          ⟨[deleteOnly "k", writeOnly "k" (Val.int 1)], store0⟩).2).1 =
        Val.int 1 ∧
    (rollbackOp (stage [TxOp.deleteT "k"]
        (beginOp ⟨[deleteOnly "k", writeOnly "k" (Val.int 1)], store0⟩))).2 =
      ⟨[deleteOnly "k", writeOnly "k" (Val.int 1)], store0⟩ := by
  have h := C6_rollback_restores
      ⟨[deleteOnly "k", writeOnly "k" (Val.int 1)], store0⟩
      [TxOp.deleteT "k"] (deleteOnly "k") (writeOnly "k" (Val.int 1)) [] "k"
  have hs := h.2.2.2 rfl (by simp [deleteOnly, singletonDeletes])
      (by simp [writeOnly, singletonWrites]) rfl
  exact ⟨hs.1, hs.2, h.2.2.1⟩

/-- C5: `depth` starts at 0; `begin` increments it by 1 and always succeeds;
`commit` and `rollback` decrement it by 1 when it is positive; at depth 0
they fail with `NoActiveTransaction` (and only then), leave the whole state
unchanged, and the session remains usable. -/
theorem C5_depth_invariants (st : SessState) (applyOk : Bool) :
    depth (newSession st.store) = 0 ∧
    depth (beginOp st) = depth st + 1 ∧
    (0 < depth st → depth (commitOp applyOk st).2 = depth st - 1) ∧
    (0 < depth st → depth (rollbackOp st).2 = depth st - 1) ∧
    ((commitOp applyOk st).1 = some Err.noActiveTransaction ↔ depth st = 0) ∧
    ((rollbackOp st).1 = some Err.noActiveTransaction ↔ depth st = 0) ∧
    (depth st = 0 → (commitOp applyOk st).2 = st ∧ (rollbackOp st).2 = st) := by
  refine ⟨rfl, by simp [depth, beginOp], ?_, ?_, ?_, ?_, ?_⟩
  · intro hd
    match hstack : st.stack with
    | [] => simp [depth, hstack] at hd
    | [top] => cases applyOk <;> simp [commitOp, hstack, depth]
    | top :: parent :: rest => simp [commitOp, hstack, depth]
  · intro hd
    match hstack : st.stack with
    | [] => simp [depth, hstack] at hd
    | top :: rest => simp [rollbackOp, hstack, depth]
  · match hstack : st.stack with
    | [] => simp [commitOp, hstack, depth]
    | [top] => cases applyOk <;> simp [commitOp, hstack, depth]
    | top :: parent :: rest => simp [commitOp, hstack, depth]
  · match hstack : st.stack with
    | [] => simp [rollbackOp, hstack, depth]
    | top :: rest => simp [rollbackOp, hstack, depth]
  · intro hd
    match hstack : st.stack with
    | [] =>
      constructor
      · show (commitOp applyOk st).2 = st
        simp [commitOp, hstack]
      · show (rollbackOp st).2 = st
        simp [rollbackOp, hstack]
    | top :: rest => simp [depth, hstack] at hd

/-- Witness for C5 at a concrete state: a fresh session has depth 0 and a
`commit` there fails leaving the state unchanged. -/
theorem C5_depth_invariants_witness :
    depth (commitOp true (newSession ⟨fun _ => none, []⟩)).2 + 1 =
      depth (beginOp (newSession ⟨fun _ => none, []⟩)) ∧
    (commitOp true (newSession ⟨fun _ => none, []⟩)).2 =
      newSession ⟨fun _ => none, []⟩ := by
  have h := C5_depth_invariants (newSession ⟨fun _ => none, []⟩) true
  exact ⟨by rw [(h.2.2.2.2.2.2 rfl).1, h.2.1], by exact (h.2.2.2.2.2.2 rfl).1⟩

/-- C7: a failed outermost commit surfaces `BatchApplyFailed`, leaves the
session at depth 0 with the popped layer lost, and leaves both the Backing
Store table and the commit log completely unchanged. -/
theorem C7_failed_outermost_commit (st : SessState) (top : Layer)
    (hstack : st.stack = [top]) :
    (commitOp false st).1 = some Err.batchApplyFailed ∧
    (commitOp false st).2.stack = [] ∧
    depth (commitOp false st).2 = 0 ∧
    (commitOp false st).2.store.db = st.store.db ∧
    (commitOp false st).2.store.log = st.store.log := by
  simp [commitOp, hstack, depth]

/-- Witness for C7 at a concrete state: one open (empty) layer, failing
batch apply. -/
theorem C7_failed_outermost_commit_witness :
    (commitOp false ⟨[emptyLayer], ⟨fun _ => none, []⟩⟩).1 =
        some Err.batchApplyFailed ∧
    (commitOp false ⟨[emptyLayer], ⟨fun _ => none, []⟩⟩).2.stack = [] ∧
    depth (commitOp false ⟨[emptyLayer], ⟨fun _ => none, []⟩⟩).2 = 0 ∧
    (commitOp false ⟨[emptyLayer], ⟨fun _ => none, []⟩⟩).2.store.db =
        (⟨[emptyLayer], ⟨fun _ => none, []⟩⟩ : SessState).store.db ∧
    (commitOp false ⟨[emptyLayer], ⟨fun _ => none, []⟩⟩).2.store.log =
        (⟨[emptyLayer], ⟨fun _ => none, []⟩⟩ : SessState).store.log :=
  C7_failed_outermost_commit ⟨[emptyLayer], ⟨fun _ => none, []⟩⟩ emptyLayer rfl

/-- The empty layer pushed by `begin` satisfies the layer invariant. -/
theorem layerInv_emptyLayer : LayerInv emptyLayer := by
  intro q hq
  simp [emptyLayer] at hq

/-- The merge of `commit` re-establishes the layer invariant in the parent:
it only needs the parent itself to satisfy it. -/
theorem layerInv_mergeLayer (parent top : Layer) (hp : LayerInv parent) :
    LayerInv (mergeLayer parent top) := by
  intro q hq
  by_cases hw : (top.writes q).isSome
  · rw [Option.isSome_iff_exists] at hw
    obtain ⟨w, hw⟩ := hw
    simp [mergeLayer, hw]
  · have hwn : top.writes q = none := Option.not_isSome_iff_eq_none.mp hw
    simp [mergeLayer, hwn] at hq ⊢
    by_cases hd : top.deleted q = true
    · simp [hd] at hq
    · simp [hd] at hq
      exact ⟨hp q hq, by simpa using hd⟩

/-- `begin` preserves the stack invariant. -/
theorem stackInv_beginOp (st : SessState) (h : StackInv st) :
    StackInv (beginOp st) := by
  intro l hl
  simp [beginOp] at hl
  rcases hl with hl | hl
  · subst hl
    exact layerInv_emptyLayer
  · exact h l hl

/-- `set` preserves the stack invariant (it removes the key from the top
layer's deleted set as it writes it). -/
theorem stackInv_setOp (k : Key) (v : Val) (st : SessState) (h : StackInv st) :
    StackInv (setOp k v st) := by
  obtain ⟨stack, store⟩ := st
  match stack with
  | [] =>
    intro l hl
    simp [setOp] at hl
  | top :: rest =>
    intro l hl
    simp [setOp] at hl
    rcases hl with hl | hl
    · subst hl
      intro q hq
      by_cases hqk : q = k
      · simp [hqk]
      · simp [hqk] at hq ⊢
        exact h top (by simp) q hq
    · exact h l (by simp [hl])

/-- `delete` preserves the stack invariant (it removes the key from the top
layer's writes as it marks it deleted). -/
theorem stackInv_deleteOp (k : Key) (st : SessState) (h : StackInv st) :
    StackInv (deleteOp k st) := by
  obtain ⟨stack, store⟩ := st
  match stack with
  | [] =>
    intro l hl
    simp [deleteOp] at hl
  | top :: rest =>
    intro l hl
    simp [deleteOp] at hl
    rcases hl with hl | hl
    · subst hl
      intro q hq
      by_cases hqk : q = k
      · simp [hqk] at hq
      · simp [hqk] at hq ⊢
        exact h top (by simp) q hq
    · exact h l (by simp [hl])

/-- `commit` preserves the stack invariant (the merge re-establishes it in
the parent layer). -/
theorem stackInv_commitOp (applyOk : Bool) (st : SessState) (h : StackInv st) :
    StackInv (commitOp applyOk st).2 := by
  obtain ⟨stack, store⟩ := st
  match stack with
  | [] => exact h
  | [top] =>
    cases applyOk with
    | true =>
      intro l hl
      simp [commitOp] at hl
    | false =>
      intro l hl
      simp [commitOp] at hl
  | top :: parent :: rest =>
    intro l hl
    simp [commitOp] at hl
    rcases hl with hl | hl
    · subst hl
      exact layerInv_mergeLayer parent top (h parent (by simp))
    · exact h l (by simp [hl])

/-- `rollback` preserves the stack invariant. -/
theorem stackInv_rollbackOp (st : SessState) (h : StackInv st) :
    StackInv (rollbackOp st).2 := by
  obtain ⟨stack, store⟩ := st
  match stack with
  | [] => exact h
  | top :: rest =>
    intro l hl
    simp [rollbackOp] at hl
    exact h l (by simp [hl])

/-- Every reachable session state satisfies the per-layer invariant. -/
theorem stackInv_of_reach (st : SessState) (h : Reach st) : StackInv st := by
  induction h with
  | init store =>
    intro l hl
    simp [newSession] at hl
  | beginR _ ih => exact stackInv_beginOp _ ih
  | setR k v _ ih => exact stackInv_setOp k v _ ih
  | deleteR k _ ih => exact stackInv_deleteOp k _ ih
  | getR k _ ih => exact ih
  | commitR applyOk _ ih => exact stackInv_commitOp applyOk _ ih
  | rollbackR _ ih => exact stackInv_rollbackOp _ ih

/-- C3: every reachable session state satisfies the invariant that no key is
in both `writes` and `deleted` of the same layer; every operation preserves
the invariant; `set` removes the key from the top layer's deleted set,
`delete` removes it from the top layer's writes, and the nested-commit merge
re-establishes the invariant in the parent layer. -/
theorem C3_layer_invariant (st : SessState) (k : Key) (v : Val)
    (applyOk : Bool) :
    (Reach st → StackInv st) ∧
    (StackInv st →
       StackInv (beginOp st) ∧ StackInv (setOp k v st) ∧
       StackInv (deleteOp k st) ∧ StackInv (getOp k st).2 ∧
       StackInv (commitOp applyOk st).2 ∧ StackInv (rollbackOp st).2) ∧
    (∀ top rest, st.stack = top :: rest →
       ∃ t2, (setOp k v st).stack = t2 :: rest ∧ t2.deleted k = false) ∧
    (∀ top rest, st.stack = top :: rest →
       ∃ t2, (deleteOp k st).stack = t2 :: rest ∧ t2.writes k = none) ∧
    (∀ parent top, LayerInv parent → LayerInv (mergeLayer parent top)) := by
  refine ⟨stackInv_of_reach st, ?_, ?_, ?_, ?_⟩
  · intro h
    exact ⟨stackInv_beginOp st h, stackInv_setOp k v st h,
           stackInv_deleteOp k st h, h,
           stackInv_commitOp applyOk st h, stackInv_rollbackOp st h⟩
  · intro top rest hstack
    refine ⟨⟨fun q => if q = k then some v else top.writes q,
             fun q => if q = k then false else top.deleted q⟩, ?_, by simp⟩
    obtain ⟨stack, store⟩ := st
    simp at hstack
    simp [setOp, hstack]
  · intro top rest hstack
    refine ⟨⟨fun q => if q = k then none else top.writes q,
             fun q => if q = k then true else top.deleted q⟩, ?_, by simp⟩
    obtain ⟨stack, store⟩ := st
    simp at hstack
    simp [deleteOp, hstack]
  · intro parent top hp
    exact layerInv_mergeLayer parent top hp

/-- Witness for C3 at a concrete reachable state: a fresh session after
`begin` and a staged `set "a" null` satisfies the stack invariant. -/
theorem C3_layer_invariant_witness :
    StackInv (setOp "a" Val.null (beginOp (newSession store0))) := by
  have h := C3_layer_invariant (beginOp (newSession store0)) "a" Val.null true
  have hinv : StackInv (beginOp (newSession store0)) :=
    h.1 (Reach.beginR (Reach.init store0))
  exact (h.2.1 hinv).2.1

/-- Counterexample to C8 as stated: after session 1 autocommits
`"k" = 1` (the table does hold `1` at `"k"`), another session that had
already staged its own write `"k" = 2` in an open transaction does not see
the new value — its `get "k"` returns its own staged `2`, not `1`.  The
effect is therefore not visible to every other session reading the key. -/
theorem C8_autocommit_counterexample :
    (setOp "k" (Val.int 1) (newSession store0)).store.db "k" =
        some (Val.int 1) ∧
    (getOp "k"
        ⟨(setOp "k" (Val.int 2) (beginOp (newSession store0))).stack,
         (setOp "k" (Val.int 1) (newSession store0)).store⟩).1 ≠
      Val.int 1 := by
  constructor
  · simp [setOp, newSession, dbSet]
  · simp [setOp, beginOp, newSession, getOp, sget, emptyLayer]

/-- C8 (amended): at depth 0, `set` upserts the key directly into the
Backing Store (leaving every other key unchanged) and appends exactly one
`autocommit` log record with `writes = {key: value}` and no deletes;
`delete` removes the key directly (succeeding even when it is absent) and
appends one `autocommit` record with no writes and `deletes = [key]`.  The
effect is immediately visible to every other session none of whose active
layers stages the key — in particular to a freshly created session. -/
theorem C8_autocommit (st : SessState) (k : Key) (v : Val)
    (h : depth st = 0) :
    (setOp k v st).stack = [] ∧
    (setOp k v st).store.db k = some v ∧
    (∀ q, q ≠ k → (setOp k v st).store.db q = st.store.db q) ∧
    (setOp k v st).store.log =
      st.store.log ++
        [⟨CommitKind.autocommit, singletonWrites k v, fun _ => false⟩] ∧
    (∀ stack2, (∀ l ∈ stack2, l.writes k = none ∧ l.deleted k = false) →
       sget stack2 (setOp k v st).store.db k = v) ∧
    sget [] (setOp k v st).store.db k = v ∧
    (deleteOp k st).stack = [] ∧
    (deleteOp k st).store.db k = none ∧
    (∀ q, q ≠ k → (deleteOp k st).store.db q = st.store.db q) ∧
    (deleteOp k st).store.log =
      st.store.log ++
        [⟨CommitKind.autocommit, fun _ => none, singletonDeletes k⟩] ∧
    (∀ stack2, (∀ l ∈ stack2, l.writes k = none ∧ l.deleted k = false) →
       sget stack2 (deleteOp k st).store.db k = Val.null) := by
  obtain ⟨stack, store⟩ := st
  simp [depth] at h
  subst h
  refine ⟨rfl, by simp [setOp, dbSet], ?_, rfl, ?_, by simp [setOp, sget, dbGet, dbSet], rfl, by simp [deleteOp, dbDelete], ?_, rfl, ?_⟩
  · intro q hq
    simp [setOp, dbSet, hq]
  · intro stack2 h2
    rw [sget_of_unresolved stack2 _ k h2]
    simp [setOp, dbGet, dbSet]
  · intro q hq
    simp [deleteOp, dbDelete, hq]
  · intro stack2 h2
    rw [sget_of_unresolved stack2 _ k h2]
    simp [deleteOp, dbGet, dbDelete]

/-- Witness for C8 at a concrete state: an autocommitted `set "k" 1` on a
fresh session lands in the table and a fresh session reads `1`. -/
theorem C8_autocommit_witness :
    (setOp "k" (Val.int 1) (newSession store0)).store.db "k" =
        some (Val.int 1) ∧
    sget [] (setOp "k" (Val.int 1) (newSession store0)).store.db "k" =
        Val.int 1 ∧
    (deleteOp "k" (newSession store0)).store.db "k" = none := by
  have h := C8_autocommit (newSession store0) "k" (Val.int 1) rfl
  exact ⟨h.2.1, h.2.2.2.2.2.1, h.2.2.2.2.2.2.2.1⟩

/-- C9: `set key null` makes `get key` return `Val.null` (Python `None`) —
whether staged in a layer or autocommitted through the store — and that is
the same result `get` gives for a key that is absent everywhere, so the
public interface cannot distinguish a stored null from an absent key; the
`GET /store/<key>` handler accordingly answers `found = False` with
HTTP 404 for both. -/
theorem C9_null_indistinguishable (st : SessState) (k : Key) :
    (getOp k (setOp k Val.null st)).1 = Val.null ∧
    ((∀ l ∈ st.stack, l.writes k = none ∧ l.deleted k = false) →
       st.store.db k = none → (getOp k st).1 = Val.null) ∧
    apiGetKey (setOp k Val.null st) k = (false, 404) ∧
    ((∀ l ∈ st.stack, l.writes k = none ∧ l.deleted k = false) →
       st.store.db k = none → apiGetKey st k = (false, 404)) := by
  have hset : (getOp k (setOp k Val.null st)).1 = Val.null := by
    obtain ⟨stack, store⟩ := st
    match stack with
    | [] => simp [setOp, getOp, sget, dbGet, dbSet]
    | top :: rest => simp [setOp, getOp, sget]
  have habs : (∀ l ∈ st.stack, l.writes k = none ∧ l.deleted k = false) →
      st.store.db k = none → (getOp k st).1 = Val.null := by
    intro h1 h2
    show sget st.stack st.store.db k = Val.null
    rw [sget_of_unresolved st.stack _ k h1]
    simp [dbGet, h2]
  refine ⟨hset, habs, ?_, ?_⟩
  · rw [apiGetKey, hset]
  · intro h1 h2
    rw [apiGetKey, habs h1 h2]

/-- Witness for C9 at concrete states: a staged `set "a" null` reads back as
null with a 404/not-found response, and so does the absent key `"a"` in a
fresh session. -/
theorem C9_null_indistinguishable_witness :
    (getOp "a" (setOp "a" Val.null (beginOp (newSession store0)))).1 =
        Val.null ∧
    apiGetKey (setOp "a" Val.null (beginOp (newSession store0))) "a" =
        (false, 404) ∧
    apiGetKey (newSession store0) "a" = (false, 404) := by
  have h1 := C9_null_indistinguishable (beginOp (newSession store0)) "a"
  have h2 := C9_null_indistinguishable (newSession store0) "a"
  exact ⟨h1.1, h1.2.2.1, h2.2.2.2 (by simp [newSession]) rfl⟩

/-- C10: `get` is side-effect-free on the transaction engine — it leaves the
layer stack, the Backing Store table and the commit log exactly unchanged. -/
theorem C10_get_frame (st : SessState) (k : Key) :
    (getOp k st).2 = st ∧
    (getOp k st).2.stack = st.stack ∧
    depth (getOp k st).2 = depth st ∧
    (getOp k st).2.store.db = st.store.db ∧
    (getOp k st).2.store.log = st.store.log :=
  ⟨rfl, rfl, rfl, rfl, rfl⟩

end ArcadeStore
